import Mathlib

/-!
Verification of the market-data acquisition and analytics engine of the
nara-degen repository: the in-memory TTL cache, the retrying fetcher and
the cached `chart`/`quote` operations (`src/services/market-data-service/src/lib/yahoo-client.ts`
and its variant with Indonesian symbol mapping), the symbol normalizer
`mapIndonesianSymbol`, and the aggregation orchestrator with its metrics
calculations (`src/services/market-data-service/src/market-data/market-data.service.ts`,
`src/src/lib/market-data.ts`).

Modelling conventions:
- Prices and percentages are rationals (`ℚ`); JavaScript numbers are
  modelled exactly, overflow and floating-point rounding are out of scope.
- Calendar dates are whole-day indices (`ℕ`); the source parses
  `YYYY-MM-DD` strings to UTC-midnight `Date`s, so date comparison and
  whole-day differences are order- and value-faithful under this encoding.
- `Date.now()` timestamps are milliseconds as `ℕ`, passed explicitly where
  the source reads the clock.
- Asynchronous provider calls are modelled by their outcomes: a value of
  type `Except ε α` stands for what a single `await` of the call produces
  (`Except.error` = the promise rejected / the function threw).
- The module-level `Map` cache is modelled as a function from keys to
  optional entries; mutation becomes explicit state passing.
-/

namespace NaraDegen

/-! ## Cache (`yahoo-client.ts` lines 13-28)

`type CacheEntry = { value: any; expires: number }` with a module-level
`Map<string, CacheEntry>`.  The stored value type is a parameter `V`. -/

structure CacheEntry (V : Type) where
  value : V
  expires : ℕ
deriving Repr, DecidableEq

/-- The cache `Map<string, CacheEntry>`, as a function from keys to entries. -/
def CacheState (V : Type) : Type := String → Option (CacheEntry V)

/-- `getCache(key)`: lazy expiration — on a present entry with
`Date.now() > e.expires` the entry is deleted and `undefined` returned.
Returns the looked-up value together with the (possibly updated) cache. -/
def getCache {V : Type} (st : CacheState V) (key : String) (now : ℕ) :
    Option V × CacheState V :=
  match st key with
  | none => (none, st)
  | some e =>
    if e.expires < now then
      (none, fun k => if k = key then none else st k)
    else
      (some e.value, st)

/-- `setCache(key, value, ttlMs)`: unconditionally overwrite with expiry
`Date.now() + ttlMs`. -/
def setCache {V : Type} (st : CacheState V) (key : String) (value : V)
    (ttlMs : ℕ) (now : ℕ) : CacheState V :=
  fun k => if k = key then some ⟨value, now + ttlMs⟩ else st k

/-! ## Retrying fetcher (`yahoo-client.ts` lines 30-42)

```
async function withRetry<T>(fn: () => Promise<T>) {
  const delays = [200, 500, 1000]
  let lastErr: any
  for (let i = 0; i < delays.length; i++) {
    try { return await fn() } catch (e) { lastErr = e; await sleep(delays[i]) }
  }
  throw lastErr
}
```

The operation is modelled as `fn : ℕ → Except ε α`, where `fn i` is the
outcome of its `i`-th invocation (0-based).  The embedding returns the
overall outcome (`Except.error lastErr` on exhaustion, where `lastErr` is
`none` only in the vacuous no-delays case), the total number of
invocations made, and the list of delays actually slept, in order. -/

def retryDelays : List ℕ := [200, 500, 1000]

def withRetryGo {ε α : Type} (fn : ℕ → Except ε α) (calls : ℕ)
    (slept : List ℕ) (lastErr : Option ε) :
    List ℕ → Except (Option ε) α × ℕ × List ℕ
  | [] => (Except.error lastErr, calls, slept.reverse)
  | d :: rest =>
    match fn calls with
    | Except.ok v => (Except.ok v, calls + 1, slept.reverse)
    | Except.error e => withRetryGo fn (calls + 1) (d :: slept) (some e) rest

def withRetry {ε α : Type} (fn : ℕ → Except ε α) :
    Except (Option ε) α × ℕ × List ℕ :=
  withRetryGo fn 0 [] none retryDelays

/-! ## Symbol normalizer (`part_001` lines 67-89, `mapIndonesianSymbol`) -/

/-- The JavaScript `s.startsWith(c)` for a one-character prefix `c`:
the first character of `s` is `c`. -/
def jsStartsWith (s : String) (c : Char) : Bool :=
  s.data.head? = some c

/-- The JavaScript `s.includes(c)` for a one-character needle `c`:
`c` occurs in `s`. -/
def jsIncludes (s : String) (c : Char) : Bool :=
  s.data.contains c

/-- `mapIndonesianSymbol(ticker)`: LQ45 aliases to `^JKLQ45`; bare `JKSE`
to `^JKSE`; tickers already starting with `^` or containing `.` unchanged;
otherwise append the `.JK` exchange suffix. -/
def mapIndonesianSymbol (ticker : String) : String :=
  if ticker = "LQ45" ∨ ticker = "LQ45.JK" ∨ ticker = "IDX:LQ45" then
    "^JKLQ45"
  else if ticker = "JKSE" ∧ ¬ jsStartsWith ticker '^' then
    "^JKSE"
  else if jsStartsWith ticker '^' ∨ jsIncludes ticker '.' then
    ticker
  else if ¬ jsIncludes ticker '.' ∧ ¬ jsStartsWith ticker '^' then
    ticker ++ ".JK"
  else
    ticker

/-! ## Cached provider operations (`yahoo-client.ts` lines 44-60, `part_001` lines 44-64)

Both operations follow `const cached = getCache(key); if (cached) return cached;
const result = await withRetry(...); setCache(key, result, ttl); return result`.
The `if (cached)` test is JavaScript truthiness on the cached value, modelled
by an explicit predicate `truthy : V → Bool` on the stored value type.
The returned `Bool` records whether the provider was invoked. -/

/-- The tail of both operations: run the retrying fetch; on success store the
result and return it, on exhaustion propagate the failure. -/
def fetchAndCache {V ε : Type} (st : CacheState V) (key : String) (ttlMs : ℕ)
    (now : ℕ) (fn : ℕ → Except ε V) :
    Except (Option ε) V × CacheState V × Bool :=
  match (withRetry fn).1 with
  | Except.ok v => (Except.ok v, setCache st key v ttlMs now, true)
  | Except.error e => (Except.error e, st, true)

/-- The `chart` cache key
`` `chart:${ticker}:${period1}:${period2}:${interval}` `` (timestamps as
numbers, here already ℕ). -/
def chartKey (ticker : String) (period1 period2 : ℕ) (interval : String) :
    String :=
  "chart:" ++ ticker ++ ":" ++ toString period1 ++ ":" ++ toString period2
    ++ ":" ++ interval

/-- `chart(ticker, options)` of `yahoo-client.ts` (service variant, no symbol
mapping): cached with a 15-minute TTL. -/
def chart {V ε : Type} (truthy : V → Bool) (st : CacheState V)
    (ticker : String) (period1 period2 : ℕ) (interval : String) (now : ℕ)
    (fn : ℕ → Except ε V) : Except (Option ε) V × CacheState V × Bool :=
  let key := chartKey ticker period1 period2 interval
  match getCache st key now with
  | (some v, st1) =>
    if truthy v then (Except.ok v, st1, false)
    else fetchAndCache st1 key (15 * 60 * 1000) now fn
  | (none, st1) => fetchAndCache st1 key (15 * 60 * 1000) now fn

/-- `quote(ticker)` of `part_001`: symbol-mapped key, cached with a 60-second
TTL. -/
def quote {V ε : Type} (truthy : V → Bool) (st : CacheState V)
    (ticker : String) (now : ℕ) (fn : ℕ → Except ε V) :
    Except (Option ε) V × CacheState V × Bool :=
  let mappedTicker := mapIndonesianSymbol ticker
  let key := "quote:" ++ mappedTicker
  match getCache st key now with
  | (some v, st1) =>
    if truthy v then (Except.ok v, st1, false)
    else fetchAndCache st1 key (60 * 1000) now fn
  | (none, st1) => fetchAndCache st1 key (60 * 1000) now fn

/-! ## Data model of the orchestrator (`market-data.service.ts`, `market-data.ts`) -/

/-- One raw item of the provider's chart response (`result.quotes`).
`adjClose` is optional in the payload; a missing or zero value is falsy in
`item.adjClose || item.close`. -/
structure RawItem where
  date : ℕ
  open_ : ℚ
  high : ℚ
  low : ℚ
  close : ℚ
  volume : ℕ
  adjClose : Option ℚ
deriving Repr, DecidableEq

/-- `MarketDataPoint` of `data/stock-calls`: one OHLCV point with the date
as a calendar day. -/
structure MarketDataPoint where
  date : ℕ
  open_ : ℚ
  high : ℚ
  low : ℚ
  close : ℚ
  volume : ℕ
  adjClose : ℚ
deriving Repr, DecidableEq, Inhabited

/-- `StockCall`: the static, configured fields of a call that the engine
reads (display-only fields such as company name, sector, analyst, thesis
are carried along unchanged by the source and omitted here). -/
structure StockCall where
  ticker : String
  entryPrice : ℚ
  targetPrice : ℚ
  currentPrice : ℚ
  callDate : ℕ
deriving Repr, DecidableEq

/-- `StockWithMarketData`: the spread `...stock` plus the computed fields. -/
structure StockWithMarketData where
  call : StockCall
  currentPrice : ℚ
  historicalData : List MarketDataPoint
  maxGain : ℚ
  currentGain : ℚ
  daysToMax : Option ℕ
  jkseReturn : ℚ
  lq45Return : ℚ
deriving Repr, DecidableEq

structure MarketIndices where
  jkse : List MarketDataPoint
  lq45 : List MarketDataPoint
deriving Repr, DecidableEq

/-- `mapHistoricalData(result)`: map each raw item to a `MarketDataPoint`;
`adjClose: item.adjClose || item.close` falls back to `close` when
`adjClose` is absent or zero (falsy). The `item.date.toISOString().split('T')[0]`
conversion is the identity under the whole-day date encoding. -/
def mapHistoricalData (result : List RawItem) : List MarketDataPoint :=
  result.map fun item =>
    { date := item.date
      open_ := item.open_
      high := item.high
      low := item.low
      close := item.close
      volume := item.volume
      adjClose :=
        match item.adjClose with
        | some a => if a = 0 then item.close else a
        | none => item.close }

/-- `fetchHistoricalData(ticker, period)` of the service
(`market-data.service.ts` lines 19-27): the `await yfChart(...)` provider
call is abstracted as its outcome `chartOutcome` (the `result.quotes` list
on fulfilment). Any thrown error is caught and the empty list returned. -/
def fetchHistoricalData {ε : Type} (chartOutcome : Except ε (List RawItem)) :
    List MarketDataPoint :=
  match chartOutcome with
  | Except.ok result => mapHistoricalData result
  | Except.error _ => []

/-- The provider environment of one orchestrator invocation: the outcome of
`yfChart(ticker, ...)` for the invocation's fixed period, the outcome of
`yfQuote(ticker)` (`Except.ok` carries `quote?.regularMarketPrice`, `none`
when the quote object or the field is missing), and whether the
orchestration body itself raises an unexpected error (the event the
top-level `try/catch` guards against, which well-typed code cannot
produce). -/
structure Env where
  chartResp : String → Except Unit (List RawItem)
  quoteResp : String → Except Unit (Option ℚ)
  pipelineFault : Bool

/-- The sequential alternative-symbol loop of `fetchMarketIndices`: first
non-empty result wins, empty if all alternatives are empty. -/
def tryAlternatives (env : Env) : List String → List MarketDataPoint
  | [] => []
  | s :: rest =>
    let altData := fetchHistoricalData (env.chartResp s)
    if altData = [] then tryAlternatives env rest else altData

/-- `fetchMarketIndices(period)` (`market-data.service.ts` lines 29-57):
`Promise.allSettled` of the two index fetches — both always fulfil because
`fetchHistoricalData` catches internally, so the `rejected → []` arms are
dead; then the LQ45 alternative-symbol retry loop. -/
def fetchMarketIndices (env : Env) : MarketIndices :=
  let jkseData := fetchHistoricalData (env.chartResp "^JKSE")
  let lq45Data := fetchHistoricalData (env.chartResp "LQ45.JK")
  let finalLq45Data :=
    if lq45Data = [] then tryAlternatives env ["^LQ45", "IDX:LQ45", "LQ45.JK"]
    else lq45Data
  { jkse := jkseData, lq45 := finalLq45Data }

/-- `getIndexReturn(indexData)` (`market-data.service.ts` lines 102-110):
0 on an empty series; otherwise percentage change from the first point with
date on/after the call date to the last point, 0 when no such start point
exists. -/
def getIndexReturn (indexData : List MarketDataPoint) (callDate : ℕ) : ℚ :=
  if indexData.length = 0 then 0
  else
    match indexData.find? (fun d => decide (callDate ≤ d.date)),
        indexData.getLast? with
    | some startNode, some endNode =>
      (endNode.close - startNode.close) / startNode.close * 100
    | _, _ => 0

/-- The body of the per-stock lambda of `fetchStocksWithMarketData`
(`market-data.service.ts` lines 67-125), given the already-fetched
historical series and the quote outcome.

Current price: the static `stock.currentPrice`, overridden by a truthy
`quote.regularMarketPrice` (present and non-zero), else by the last
historical close when history is non-empty — the same fallback runs when
the quote call throws.

`daysToMax` uses `Math.ceil(|maxDate - callDate| / 86400000)`, which on
whole-day UTC-midnight dates is exactly the absolute day difference. -/
def currentPriceOf (stock : StockCall) (historicalData : List MarketDataPoint)
    (quoteOutcome : Except Unit (Option ℚ)) : ℚ :=
  match quoteOutcome with
  | Except.ok (some p) =>
    if p ≠ 0 then p
    else if historicalData ≠ [] then
      (historicalData.getLast?.getD default).close
    else stock.currentPrice
  | Except.ok none =>
    if historicalData ≠ [] then (historicalData.getLast?.getD default).close
    else stock.currentPrice
  | Except.error _ =>
    if historicalData ≠ [] then (historicalData.getLast?.getD default).close
    else stock.currentPrice

/-- The metrics block of the per-stock lambda (lines 84-100): current gain,
max gain over the series restricted to dates on/after the call date with
the effective maximum price `max maxPrice currentPrice`, and days-to-max
anchored to the first point whose high equals the historical maximum. -/
def computeGains (entryPrice : ℚ) (callDate : ℕ) (currentPrice : ℚ)
    (historicalData : List MarketDataPoint) : ℚ × ℚ × Option ℕ :=
  let currentGain := (currentPrice - entryPrice) / entryPrice * 100
  let dataSinceCall :=
    historicalData.filter fun d => decide (callDate ≤ d.date)
  match dataSinceCall with
  | [] => (currentGain, currentGain, none)
  | h :: t =>
    let maxPrice := (t.map (·.high)).foldl max h.high
    let effectiveMaxPrice := max maxPrice currentPrice
    let maxGain := (effectiveMaxPrice - entryPrice) / entryPrice * 100
    let daysToMax :=
      match (h :: t).find? (fun d => decide (d.high = maxPrice)) with
      | some maxPriceEntry =>
        some ((maxPriceEntry.date : ℤ) - (callDate : ℤ)).natAbs
      | none => none
    (currentGain, maxGain, daysToMax)

def processStock (stock : StockCall) (historicalData : List MarketDataPoint)
    (quoteOutcome : Except Unit (Option ℚ)) (jkse lq45 : List MarketDataPoint) :
    StockWithMarketData :=
  let currentPrice := currentPriceOf stock historicalData quoteOutcome
  let gains :=
    computeGains stock.entryPrice stock.callDate currentPrice historicalData
  { call := stock
    currentPrice := currentPrice
    historicalData := historicalData
    maxGain := gains.2.1
    currentGain := gains.1
    daysToMax := gains.2.2
    jkseReturn := getIndexReturn jkse stock.callDate
    lq45Return := getIndexReturn lq45 stock.callDate }

/-- The degraded per-call fallback of the top-level `catch`
(`market-data.service.ts` lines 130-141): static fields only, gain from the
static current price, empty history, no days-to-max, zero index returns. -/
def degradedStock (stock : StockCall) : StockWithMarketData :=
  let currentGain :=
    (stock.currentPrice - stock.entryPrice) / stock.entryPrice * 100
  { call := stock
    currentPrice := stock.currentPrice
    historicalData := []
    maxGain := currentGain
    currentGain := currentGain
    daysToMax := none
    jkseReturn := 0
    lq45Return := 0 }

/-- `fetchStocksWithMarketData(stockCalls, lookbackDays)`
(`market-data.service.ts` lines 59-144). `dummyStockCalls` is the
module-level configured call list that is both the parameter default and
the source of the `catch`-branch fallback. The lookback window only fixes
the period already absorbed into `env.chartResp`. -/
def fetchStocksWithMarketData (dummyStockCalls : List StockCall) (env : Env)
    (stockCalls : List StockCall) :
    List StockWithMarketData × MarketIndices :=
  if env.pipelineFault then
    (dummyStockCalls.map degradedStock, { jkse := [], lq45 := [] })
  else
    let marketIndices := fetchMarketIndices env
    let stocksWithData := stockCalls.map fun stock =>
      processStock stock (fetchHistoricalData (env.chartResp stock.ticker))
        (env.quoteResp stock.ticker) marketIndices.jkse marketIndices.lq45
    (stocksWithData, marketIndices)

/-! ## Theorems -/

/-- C1 (counterexample): an operation that fails its first 3 invocations and
would succeed on the 4th is invoked only 3 times — the loop runs once per
delay in `[200, 500, 1000]` — and `withRetry` rethrows the last error, so
the claimed 4 invocations returning the 4th attempt's value are refuted. -/
theorem withRetry_fourth_attempt_counterexample :
    (withRetry (fun i => if i < 3 then Except.error i else Except.ok 42)).2.1 = 3 ∧
    (withRetry (fun i => if i < 3 then Except.error i else Except.ok 42)).1 =
      Except.error (some 2) ∧
    ¬((withRetry (fun i => if i < 3 then Except.error i else Except.ok 42)).2.1 = 4 ∧
      (withRetry (fun i => if i < 3 then Except.error i else Except.ok 42)).1 =
        Except.ok 42) := by
  refine ⟨by decide, rfl, fun h => absurd h.1 (by decide)⟩

/-- C1 (amended): `withRetry` makes at most 3 invocations. An operation that
fails on its first 3 invocations is invoked exactly 3 times, the delays
200ms, 500ms and 1000ms are slept (one after each failed attempt), and the
last failure is propagated; a 4th invocation never happens. -/
theorem withRetry_exhausts_after_three_attempts {ε α : Type}
    (fn : ℕ → Except ε α) (e0 e1 e2 : ε) (h0 : fn 0 = Except.error e0)
    (h1 : fn 1 = Except.error e1) (h2 : fn 2 = Except.error e2) :
    withRetry fn = (Except.error (some e2), 3, [200, 500, 1000]) := by
  simp [withRetry, retryDelays, withRetryGo, h0, h1, h2]

/-- C1 (witness for the amended theorem), at the always-failing operation
`fun i => Except.error i`. -/
theorem withRetry_exhausts_after_three_attempts_witness :
    withRetry (fun i => (Except.error i : Except ℕ ℕ)) =
      (Except.error (some 2), 3, [200, 500, 1000]) :=
  withRetry_exhausts_after_three_attempts (fun i => Except.error i) 0 1 2
    rfl rfl rfl

/-- C2 (counterexample): when the provider call fails unrecoverably (the
retrying fetch rejects), `fetchHistoricalData` returns the empty series —
the very value it returns when the provider succeeds with no points — so
the failure is not propagated to the Orchestrator and emptiness and failure
are conflated. -/
theorem fetchHistoricalData_error_counterexample :
    fetchHistoricalData (Except.error 0 : Except ℕ (List RawItem)) = [] ∧
    fetchHistoricalData (Except.ok [] : Except ℕ (List RawItem)) = [] :=
  ⟨rfl, rfl⟩

/-- C2 (amended): `fetchHistoricalData` catches every provider failure and
returns the empty series; only a successful provider response is mapped to
data points. The caller cannot distinguish an unrecoverable failure from a
provider that returned no points. -/
theorem fetchHistoricalData_catches_all {ε : Type} (e : ε)
    (raw : List RawItem) :
    fetchHistoricalData (Except.error e : Except ε (List RawItem)) = [] ∧
    fetchHistoricalData (Except.ok raw : Except ε (List RawItem)) =
      mapHistoricalData raw :=
  ⟨rfl, rfl⟩

/-- C9: cache round-trip with lazy expiration. After `set(k, v, ttl)` at
time `now0`, a `get(k)` at any time `now1 ≤ now0 + ttl` returns `v` and
leaves the cache unchanged; a `get(k)` at any time strictly past the expiry
`now0 + ttl` reports a miss and removes the entry. -/
theorem cache_roundtrip_and_lazy_expiration {V : Type} (st : CacheState V)
    (k : String) (v : V) (ttl now0 now1 : ℕ) (httl : 0 < ttl) :
    (now1 ≤ now0 + ttl →
      getCache (setCache st k v ttl now0) k now1 =
        (some v, setCache st k v ttl now0)) ∧
    (now0 + ttl < now1 →
      (getCache (setCache st k v ttl now0) k now1).1 = none ∧
      (getCache (setCache st k v ttl now0) k now1).2 k = none) := by
  constructor
  · intro h
    simp [getCache, setCache, Nat.not_lt.mpr h]
  · intro h
    simp [getCache, setCache, h]

/-- C9 (witness): on the empty cache, `set("k", 5, ttl := 10)` at time 0 is
a hit at time 10 and a removing miss at time 11. -/
theorem cache_roundtrip_and_lazy_expiration_witness :
    (0 : ℕ) < 10 ∧
    getCache (setCache (V := ℕ) (fun _ => none) "k" 5 10 0) "k" 10 =
      (some 5, setCache (fun _ => none) "k" 5 10 0) ∧
    (getCache (setCache (V := ℕ) (fun _ => none) "k" 5 10 0) "k" 11).1 =
      none ∧
    (getCache (setCache (V := ℕ) (fun _ => none) "k" 5 10 0) "k" 11).2 "k" =
      none := by
  refine ⟨by decide, ?_, ?_, ?_⟩
  · exact (cache_roundtrip_and_lazy_expiration (fun _ => none) "k" 5 10 0 10
      (by decide)).1 (by decide)
  · exact ((cache_roundtrip_and_lazy_expiration (fun _ => none) "k" 5 10 0 11
      (by decide)).2 (by decide)).1
  · exact ((cache_roundtrip_and_lazy_expiration (fun _ => none) "k" 5 10 0 11
      (by decide)).2 (by decide)).2

/-- C5: the index-relative return is 0 when the series is empty or has no
point with date on/after the call date; otherwise it is
`(end.close - start.close) / start.close * 100` for the first point
`start` with date ≥ call date and the last point `end` of the series. -/
theorem getIndexReturn_spec (indexData : List MarketDataPoint)
    (callDate : ℕ) :
    ((indexData = [] ∨
        indexData.find? (fun d => decide (callDate ≤ d.date)) = none) →
      getIndexReturn indexData callDate = 0) ∧
    (∀ startNode endNode,
      indexData.find? (fun d => decide (callDate ≤ d.date)) = some startNode →
      indexData.getLast? = some endNode →
      getIndexReturn indexData callDate =
        (endNode.close - startNode.close) / startNode.close * 100) := by
  constructor
  · rintro (rfl | hfind)
    · rfl
    · by_cases hnil : indexData.length = 0
      · simp [getIndexReturn, hnil]
      · cases hLast : indexData.getLast? <;>
          simp [getIndexReturn, hnil, hfind, hLast]
  · intro startNode endNode hfind hlast
    have hne : indexData ≠ [] := by
      rintro rfl
      simp at hlast
    have hlen : ¬ indexData.length = 0 := by
      simpa [List.length_eq_zero] using hne
    simp [getIndexReturn, hlen, hfind, hlast]

/-- C5 (witness): on a two-point series with closes 100 then 150 and a call
date before both points, the return is 50%. -/
theorem getIndexReturn_spec_witness :
    getIndexReturn
      [⟨10, 1, 1, 1, 100, 0, 1⟩, ⟨20, 1, 1, 1, 150, 0, 1⟩] 5 = 50 := by
  have h := (getIndexReturn_spec
      [⟨10, 1, 1, 1, 100, 0, 1⟩, ⟨20, 1, 1, 1, 150, 0, 1⟩] 5).2
      ⟨10, 1, 1, 1, 100, 0, 1⟩ ⟨20, 1, 1, 1, 150, 0, 1⟩ (by decide) (by decide)
  rw [h]
  norm_num

/-- Both arms of the `dataSinceCall` match produce the same first component:
the current gain. -/
theorem computeGains_fst (entryPrice : ℚ) (callDate : ℕ) (currentPrice : ℚ)
    (historicalData : List MarketDataPoint) :
    (computeGains entryPrice callDate currentPrice historicalData).1 =
      (currentPrice - entryPrice) / entryPrice * 100 := by
  cases h : historicalData.filter (fun d => decide (callDate ≤ d.date)) with
  | nil => simp [computeGains, h]
  | cons hd tl => simp [computeGains, h]

/-- A left fold of `max` is either its start value or a list element. -/
theorem foldl_max_attained (l : List ℚ) (x : ℚ) :
    l.foldl max x = x ∨ l.foldl max x ∈ l := by
  induction l generalizing x with
  | nil => exact Or.inl rfl
  | cons y ys ih =>
    rw [List.foldl_cons]
    rcases ih (max x y) with h | h
    · rcases max_choice x y with hm | hm
      · exact Or.inl (by rw [h, hm])
      · refine Or.inr ?_
        rw [h, hm]
        exact List.mem_cons_self y ys
    · exact Or.inr (List.mem_cons_of_mem y h)

/-- C4: with a positive entry price, the computed max gain is at least the
computed current gain, whatever the historical series, quote outcome and
index series are: the effective maximum price `max maxPrice currentPrice`
is never below the current price. -/
theorem processStock_maxGain_ge_currentGain (stock : StockCall)
    (historicalData jkse lq45 : List MarketDataPoint)
    (quoteOutcome : Except Unit (Option ℚ))
    (hentry : 0 < stock.entryPrice) :
    (processStock stock historicalData quoteOutcome jkse lq45).currentGain ≤
      (processStock stock historicalData quoteOutcome jkse lq45).maxGain := by
  have key : ∀ cp : ℚ,
      (computeGains stock.entryPrice stock.callDate cp historicalData).1 ≤
        (computeGains stock.entryPrice stock.callDate cp historicalData).2.1 := by
    intro cp
    cases h : historicalData.filter
        (fun d => decide (stock.callDate ≤ d.date)) with
    | nil => simp [computeGains, h]
    | cons hd tl =>
      simp only [computeGains, h]
      have h1 : cp ≤ max ((tl.map (fun d => d.high)).foldl max hd.high) cp :=
        le_max_right _ _
      have h2 : cp - stock.entryPrice ≤
          max ((tl.map (fun d => d.high)).foldl max hd.high) cp -
            stock.entryPrice := by linarith
      have h3 := (div_le_div_iff_of_pos_right hentry).mpr h2
      exact mul_le_mul_of_nonneg_right h3 (by norm_num)
  simpa [processStock] using
    key (currentPriceOf stock historicalData quoteOutcome)

/-- C4 (witness): entry 800, one historical point with high 1200 on/after
the call date, quoted price 900. -/
theorem processStock_maxGain_ge_currentGain_witness :
    (0 : ℚ) < 800 ∧
    (processStock ⟨"BBCA", 800, 1000, 850, 0⟩
        [⟨10, 1100, 1200, 1000, 1150, 5, 1150⟩] (Except.ok (some 900))
        [] []).currentGain ≤
      (processStock ⟨"BBCA", 800, 1000, 850, 0⟩
        [⟨10, 1100, 1200, 1000, 1150, 5, 1150⟩] (Except.ok (some 900))
        [] []).maxGain :=
  ⟨by norm_num,
    processStock_maxGain_ge_currentGain ⟨"BBCA", 800, 1000, 850, 0⟩
      [⟨10, 1100, 1200, 1000, 1150, 5, 1150⟩] [] [] (Except.ok (some 900))
      (by norm_num)⟩

/-- C6: when the historical series restricted to dates on/after the call
date is empty, the computed max gain equals the computed current gain and
days-to-max is absent. -/
theorem processStock_empty_since_call (stock : StockCall)
    (historicalData jkse lq45 : List MarketDataPoint)
    (quoteOutcome : Except Unit (Option ℚ))
    (h : historicalData.filter
        (fun d => decide (stock.callDate ≤ d.date)) = []) :
    (processStock stock historicalData quoteOutcome jkse lq45).maxGain =
      (processStock stock historicalData quoteOutcome jkse lq45).currentGain ∧
    (processStock stock historicalData quoteOutcome jkse lq45).daysToMax =
      none := by
  simp [processStock, computeGains, h]

/-- C6 (witness): one historical point strictly before the call date, so the
restricted series is empty. -/
theorem processStock_empty_since_call_witness :
    ([⟨50, 1, 2, 1, 1, 0, 1⟩] : List MarketDataPoint).filter
      (fun d => decide ((100 : ℕ) ≤ d.date)) = [] ∧
    (processStock ⟨"BBCA", 800, 1000, 900, 100⟩ [⟨50, 1, 2, 1, 1, 0, 1⟩]
        (Except.ok none) [] []).maxGain =
      (processStock ⟨"BBCA", 800, 1000, 900, 100⟩ [⟨50, 1, 2, 1, 1, 0, 1⟩]
        (Except.ok none) [] []).currentGain ∧
    (processStock ⟨"BBCA", 800, 1000, 900, 100⟩ [⟨50, 1, 2, 1, 1, 0, 1⟩]
        (Except.ok none) [] []).daysToMax = none := by
  refine ⟨by decide, ?_⟩
  exact processStock_empty_since_call ⟨"BBCA", 800, 1000, 900, 100⟩
    [⟨50, 1, 2, 1, 1, 0, 1⟩] [] [] (Except.ok none) (by decide)

/-- C7 (counterexample): the §8 end-to-end scenario — entry 800, call date
day 0, highs 900/1200/1100 on days 9/45/61, quoted current price 2200
exceeding every high — yields `daysToMax = some 45` (the first historical
maximum, day 45), which is neither absent nor zero, refuting the claim. -/
theorem processStock_daysToMax_counterexample :
    (∀ d ∈ ([⟨9, 900, 900, 900, 900, 0, 900⟩,
        ⟨45, 1200, 1200, 1200, 1200, 0, 1200⟩,
        ⟨61, 1100, 1100, 1100, 1100, 0, 1100⟩] : List MarketDataPoint),
      d.high <
        (processStock ⟨"X", 800, 1000, 2000, 0⟩
          [⟨9, 900, 900, 900, 900, 0, 900⟩,
           ⟨45, 1200, 1200, 1200, 1200, 0, 1200⟩,
           ⟨61, 1100, 1100, 1100, 1100, 0, 1100⟩]
          (Except.ok (some 2200)) [] []).currentPrice) ∧
    (processStock ⟨"X", 800, 1000, 2000, 0⟩
        [⟨9, 900, 900, 900, 900, 0, 900⟩,
         ⟨45, 1200, 1200, 1200, 1200, 0, 1200⟩,
         ⟨61, 1100, 1100, 1100, 1100, 0, 1100⟩]
        (Except.ok (some 2200)) [] []).daysToMax = some 45 ∧
    ¬((processStock ⟨"X", 800, 1000, 2000, 0⟩
        [⟨9, 900, 900, 900, 900, 0, 900⟩,
         ⟨45, 1200, 1200, 1200, 1200, 0, 1200⟩,
         ⟨61, 1100, 1100, 1100, 1100, 0, 1100⟩]
        (Except.ok (some 2200)) [] []).daysToMax = none ∨
      (processStock ⟨"X", 800, 1000, 2000, 0⟩
        [⟨9, 900, 900, 900, 900, 0, 900⟩,
         ⟨45, 1200, 1200, 1200, 1200, 0, 1200⟩,
         ⟨61, 1100, 1100, 1100, 1100, 0, 1100⟩]
        (Except.ok (some 2200)) [] []).daysToMax = some 0) := by
  decide

/-- `List.find?` returns the first match: the list splits as
`pre ++ a :: suf` with no element of `pre` satisfying the predicate. -/
theorem find?_eq_some_first_match {α : Type} (p : α → Bool) (l : List α)
    (a : α) (h : l.find? p = some a) :
    ∃ pre suf, l = pre ++ a :: suf ∧ p a = true ∧ ∀ q ∈ pre, p q = false := by
  induction l with
  | nil => simp at h
  | cons x xs ih =>
    cases hx : p x with
    | true =>
      have hxa : some x = some a := by simpa [List.find?_cons, hx] using h
      obtain rfl := Option.some.inj hxa
      exact ⟨[], xs, rfl, hx, by simp⟩
    | false =>
      have h' : xs.find? p = some a := by simpa [List.find?_cons, hx] using h
      obtain ⟨pre, suf, rfl, hpa, hpre⟩ := ih h'
      refine ⟨x :: pre, suf, rfl, hpa, ?_⟩
      intro q hq
      rcases List.mem_cons.mp hq with rfl | hq
      · exact hx
      · exact hpre q hq

/-- C7 (amended): whenever the restricted-since-call-date series is
non-empty — in particular when the current price strictly exceeds every
high in it, so the effective maximum price is the current price —
days-to-max is still anchored to history: it is `some` of the absolute
whole-day distance from the call date to the FIRST point whose high equals
the maximum historical high — the restricted series splits as
`pre ++ p :: suf` where no point of `pre` attains the maximum — a value in
general neither absent nor zero. -/
theorem processStock_daysToMax_first_historical_max (stock : StockCall)
    (historicalData jkse lq45 : List MarketDataPoint)
    (quoteOutcome : Except Unit (Option ℚ)) (hd : MarketDataPoint)
    (tl : List MarketDataPoint)
    (hfl : historicalData.filter
        (fun d => decide (stock.callDate ≤ d.date)) = hd :: tl)
    (hcur : ∀ d ∈ hd :: tl,
      d.high <
        (processStock stock historicalData quoteOutcome jkse lq45).currentPrice) :
    ∃ pre p suf,
      hd :: tl = pre ++ p :: suf ∧
      p.high = (tl.map (fun d => d.high)).foldl max hd.high ∧
      (∀ q ∈ pre,
        q.high ≠ (tl.map (fun d => d.high)).foldl max hd.high) ∧
      (processStock stock historicalData quoteOutcome jkse lq45).daysToMax =
        some ((p.date : ℤ) - (stock.callDate : ℤ)).natAbs := by
  clear hcur
  have hex : ∃ x ∈ hd :: tl,
      (fun d => decide
        (d.high = (tl.map (fun d => d.high)).foldl max hd.high)) x = true := by
    rcases foldl_max_attained (tl.map (fun d => d.high)) hd.high with h | h
    · exact ⟨hd, List.mem_cons_self hd tl, by simp [h]⟩
    · rcases List.mem_map.mp h with ⟨p, hp, hph⟩
      exact ⟨p, List.mem_cons_of_mem hd hp, by simp [hph]⟩
  have hsome : ((hd :: tl).find?
      (fun d => decide
        (d.high = (tl.map (fun d => d.high)).foldl max hd.high))).isSome := by
    rw [List.find?_isSome]
    exact hex
  rcases Option.isSome_iff_exists.mp hsome with ⟨q, hq⟩
  obtain ⟨pre, suf, hsplit, hpa, hpre⟩ := find?_eq_some_first_match _ _ _ hq
  refine ⟨pre, q, suf, hsplit, of_decide_eq_true hpa, ?_, ?_⟩
  · intro r hr
    exact of_decide_eq_false (hpre r hr)
  · simp [processStock, computeGains, hfl, hq]

/-- C7 (witness for the amended theorem): the §8 scenario again; the first
(and only) maximum point is day 45 with high 1200, preceded only by the
day-9 point with high 900. -/
theorem processStock_daysToMax_first_historical_max_witness :
    ∃ pre p suf,
      ([⟨9, 900, 900, 900, 900, 0, 900⟩,
        ⟨45, 1200, 1200, 1200, 1200, 0, 1200⟩,
        ⟨61, 1100, 1100, 1100, 1100, 0, 1100⟩] : List MarketDataPoint) =
        pre ++ p :: suf ∧
      p.high = (([⟨45, 1200, 1200, 1200, 1200, 0, 1200⟩,
          ⟨61, 1100, 1100, 1100, 1100, 0, 1100⟩] :
            List MarketDataPoint).map (fun d => d.high)).foldl max 900 ∧
      (∀ q ∈ pre,
        q.high ≠ (([⟨45, 1200, 1200, 1200, 1200, 0, 1200⟩,
            ⟨61, 1100, 1100, 1100, 1100, 0, 1100⟩] :
              List MarketDataPoint).map (fun d => d.high)).foldl max 900) ∧
      (processStock ⟨"X", 800, 1000, 2000, 0⟩
          [⟨9, 900, 900, 900, 900, 0, 900⟩,
           ⟨45, 1200, 1200, 1200, 1200, 0, 1200⟩,
           ⟨61, 1100, 1100, 1100, 1100, 0, 1100⟩]
          (Except.ok (some 2200)) [] []).daysToMax =
        some ((p.date : ℤ) - ((0 : ℕ) : ℤ)).natAbs := by
  exact processStock_daysToMax_first_historical_max ⟨"X", 800, 1000, 2000, 0⟩
    [⟨9, 900, 900, 900, 900, 0, 900⟩,
     ⟨45, 1200, 1200, 1200, 1200, 0, 1200⟩,
     ⟨61, 1100, 1100, 1100, 1100, 0, 1100⟩] [] [] (Except.ok (some 2200))
    ⟨9, 900, 900, 900, 900, 0, 900⟩
    [⟨45, 1200, 1200, 1200, 1200, 0, 1200⟩,
     ⟨61, 1100, 1100, 1100, 1100, 0, 1100⟩]
    (by decide) (by decide)

/-- C3 (counterexample): when the pipeline faults, the degraded snapshot is
built from the module-level `dummyStockCalls`, not from the input list —
with one configured dummy call and an empty input list, the snapshot holds
one stock, while a snapshot built from the input's calls would hold none. -/
theorem degraded_snapshot_counterexample :
    (fetchStocksWithMarketData [⟨"BBCA", 800, 1000, 900, 0⟩]
        { chartResp := fun _ => Except.ok []
          quoteResp := fun _ => Except.ok none
          pipelineFault := true } []).1.length = 1 ∧
    (([] : List StockCall).map degradedStock).length = 0 ∧
    (fetchStocksWithMarketData [⟨"BBCA", 800, 1000, 900, 0⟩]
        { chartResp := fun _ => Except.ok []
          quoteResp := fun _ => Except.ok none
          pipelineFault := true } []).1 ≠
      ([] : List StockCall).map degradedStock := by
  refine ⟨rfl, rfl, ?_⟩
  intro h
  exact absurd (congrArg List.length h) (by decide)

/-- C3 (amended): when the orchestration pipeline raises an unexpected
error, `fetchStocksWithMarketData` returns (does not throw) a degraded
snapshot built from the configured `dummyStockCalls` list (which coincides
with the input only when the caller uses the default argument): every
returned stock has empty historical data, current gain computed from its
static current price, max gain equal to current gain, absent days-to-max
and zero index returns, and both index series are empty. -/
theorem degraded_snapshot_from_dummy_calls
    (dummyStockCalls stockCalls : List StockCall) (env : Env)
    (hfault : env.pipelineFault = true) :
    fetchStocksWithMarketData dummyStockCalls env stockCalls =
      (dummyStockCalls.map degradedStock, { jkse := [], lq45 := [] }) ∧
    ∀ s ∈ (fetchStocksWithMarketData dummyStockCalls env stockCalls).1,
      s.historicalData = [] ∧
      s.currentGain =
        (s.call.currentPrice - s.call.entryPrice) / s.call.entryPrice * 100 ∧
      s.maxGain = s.currentGain ∧
      s.daysToMax = none ∧
      s.jkseReturn = 0 ∧
      s.lq45Return = 0 := by
  have hmain : fetchStocksWithMarketData dummyStockCalls env stockCalls =
      (dummyStockCalls.map degradedStock, { jkse := [], lq45 := [] }) := by
    simp [fetchStocksWithMarketData, hfault]
  refine ⟨hmain, ?_⟩
  intro s hs
  rw [hmain] at hs
  rcases List.mem_map.mp hs with ⟨c, -, rfl⟩
  simp [degradedStock]

/-- C3 (witness for the amended theorem), with one dummy call, a distinct
input call and a faulting pipeline. -/
theorem degraded_snapshot_from_dummy_calls_witness :
    fetchStocksWithMarketData [⟨"BBCA", 800, 1000, 900, 0⟩]
        { chartResp := fun _ => Except.ok []
          quoteResp := fun _ => Except.ok none
          pipelineFault := true } [⟨"TLKM", 100, 200, 150, 3⟩] =
      ([⟨"BBCA", 800, 1000, 900, 0⟩].map degradedStock,
        { jkse := [], lq45 := [] }) :=
  (degraded_snapshot_from_dummy_calls [⟨"BBCA", 800, 1000, 900, 0⟩]
    [⟨"TLKM", 100, 200, 150, 3⟩]
    { chartResp := fun _ => Except.ok []
      quoteResp := fun _ => Except.ok none
      pipelineFault := true } rfl).1

/-- On both provider outcomes the fetch-and-store tail reports that the
provider was invoked. -/
theorem fetchAndCache_calls_provider {V ε : Type} (st : CacheState V)
    (key : String) (ttlMs now : ℕ) (fn : ℕ → Except ε V) :
    (fetchAndCache st key ttlMs now fn).2.2 = true := by
  unfold fetchAndCache
  cases (withRetry fn).1 <;> rfl

/-- C10: a cached value that is falsy is treated as a miss even while its
TTL is unexpired: both `chart` and `quote` fall through to the provider
path (`fetchAndCache`), so the provider is invoked on every such request. -/
theorem falsy_cached_value_refetched {V ε : Type} (truthy : V → Bool)
    (st : CacheState V) (ticker interval : String)
    (period1 period2 now : ℕ) (fnC fnQ : ℕ → Except ε V)
    (eC eQ : CacheEntry V)
    (hC : st (chartKey ticker period1 period2 interval) = some eC)
    (hCexp : ¬ eC.expires < now) (hCf : truthy eC.value = false)
    (hQ : st ("quote:" ++ mapIndonesianSymbol ticker) = some eQ)
    (hQexp : ¬ eQ.expires < now) (hQf : truthy eQ.value = false) :
    chart truthy st ticker period1 period2 interval now fnC =
      fetchAndCache st (chartKey ticker period1 period2 interval)
        (15 * 60 * 1000) now fnC ∧
    (chart truthy st ticker period1 period2 interval now fnC).2.2 = true ∧
    quote truthy st ticker now fnQ =
      fetchAndCache st ("quote:" ++ mapIndonesianSymbol ticker)
        (60 * 1000) now fnQ ∧
    (quote truthy st ticker now fnQ).2.2 = true := by
  have hchart : chart truthy st ticker period1 period2 interval now fnC =
      fetchAndCache st (chartKey ticker period1 period2 interval)
        (15 * 60 * 1000) now fnC := by
    simp [chart, getCache, hC, hCexp, hCf]
  have hquote : quote truthy st ticker now fnQ =
      fetchAndCache st ("quote:" ++ mapIndonesianSymbol ticker)
        (60 * 1000) now fnQ := by
    simp [quote, getCache, hQ, hQexp, hQf]
  refine ⟨hchart, ?_, hquote, ?_⟩
  · rw [hchart]
    exact fetchAndCache_calls_provider _ _ _ _ _
  · rw [hquote]
    exact fetchAndCache_calls_provider _ _ _ _ _

/-- C10 (witness): a cache holding the falsy value 0 (unexpired, expiry 100,
now 50) under both the chart key and the quote key for ticker `BBCA`;
truthiness of a number is being non-zero. -/
theorem falsy_cached_value_refetched_witness :
    (chart (V := ℕ) (ε := Unit) (fun v => decide (v ≠ 0))
      (fun k =>
        if k = chartKey "BBCA" 1 2 "1d" then some ⟨0, 100⟩
        else if k = "quote:" ++ mapIndonesianSymbol "BBCA" then some ⟨0, 100⟩
        else none)
      "BBCA" 1 2 "1d" 50 (fun _ => Except.ok 7)).2.2 = true ∧
    (quote (V := ℕ) (ε := Unit) (fun v => decide (v ≠ 0))
      (fun k =>
        if k = chartKey "BBCA" 1 2 "1d" then some ⟨0, 100⟩
        else if k = "quote:" ++ mapIndonesianSymbol "BBCA" then some ⟨0, 100⟩
        else none)
      "BBCA" 50 (fun _ => Except.ok 7)).2.2 = true := by
  have h := falsy_cached_value_refetched (V := ℕ) (ε := Unit)
    (fun v => decide (v ≠ 0))
    (fun k =>
      if k = chartKey "BBCA" 1 2 "1d" then some ⟨0, 100⟩
      else if k = "quote:" ++ mapIndonesianSymbol "BBCA" then some ⟨0, 100⟩
      else none)
    "BBCA" "1d" 1 2 50 (fun _ => Except.ok 7) (fun _ => Except.ok 7)
    ⟨0, 100⟩ ⟨0, 100⟩ (by decide) (by decide) (by decide) (by decide)
    (by decide) (by decide)
  exact ⟨h.2.1, h.2.2.2⟩

/-- The normalizer's range invariant: not an LQ45 alias, and already
qualified (`^`-prefixed or containing a `.` delimiter). -/
def Normalized (s : String) : Prop :=
  s ≠ "LQ45" ∧ s ≠ "LQ45.JK" ∧ s ≠ "IDX:LQ45" ∧
  (jsStartsWith s '^' = true ∨ jsIncludes s '.' = true)

/-- Appending the exchange suffix to a ticker other than `LQ45` cannot
produce an LQ45 alias. -/
theorem append_jk_ne_aliases (x : String) (hx : x ≠ "LQ45") :
    x ++ ".JK" ≠ "LQ45" ∧ x ++ ".JK" ≠ "LQ45.JK" ∧
    x ++ ".JK" ≠ "IDX:LQ45" := by
  refine ⟨?_, ?_, ?_⟩
  · intro h
    have hd := congrArg String.data h
    rw [String.data_append] at hd
    have hlast := congrArg List.getLast? hd
    simp [show (".JK" : String).data = ['.', 'J', 'K'] from rfl,
      show ("LQ45" : String).data = ['L', 'Q', '4', '5'] from rfl,
      List.getLast?_append] at hlast
  · intro h
    have hd := congrArg String.data h
    rw [String.data_append] at hd
    have h2 : x.data ++ (".JK" : String).data =
        ("LQ45" : String).data ++ (".JK" : String).data := hd
    exact hx (String.ext (List.append_cancel_right h2))
  · intro h
    have hd := congrArg String.data h
    rw [String.data_append] at hd
    have hlast := congrArg List.getLast? hd
    simp [show (".JK" : String).data = ['.', 'J', 'K'] from rfl,
      show ("IDX:LQ45" : String).data =
        ['I', 'D', 'X', ':', 'L', 'Q', '4', '5'] from rfl,
      List.getLast?_append] at hlast

/-- A suffixed ticker contains the `.` delimiter. -/
theorem jsIncludes_append_jk (x : String) :
    jsIncludes (x ++ ".JK") '.' = true := by
  unfold jsIncludes
  rw [String.data_append]
  simp

/-- Every normalizer output satisfies the range invariant. -/
theorem normalized_mapIndonesianSymbol (x : String) :
    Normalized (mapIndonesianSymbol x) := by
  unfold mapIndonesianSymbol
  split_ifs with h1 h2 h3 h4
  · exact ⟨by decide, by decide, by decide, Or.inl (by decide)⟩
  · exact ⟨by decide, by decide, by decide, Or.inl (by decide)⟩
  · push_neg at h1
    refine ⟨h1.1, h1.2.1, h1.2.2, ?_⟩
    rcases h3 with h3 | h3
    · exact Or.inl h3
    · exact Or.inr h3
  · push_neg at h1
    obtain ⟨ha, -, -⟩ := h1
    obtain ⟨n1, n2, n3⟩ := append_jk_ne_aliases x ha
    exact ⟨n1, n2, n3, Or.inr (jsIncludes_append_jk x)⟩
  · exfalso
    exact h4 ⟨fun hi => h3 (Or.inr hi), fun hs => h3 (Or.inl hs)⟩

/-- The normalizer fixes every string in its range. -/
theorem mapIndonesianSymbol_fixed (s : String) (h : Normalized s) :
    mapIndonesianSymbol s = s := by
  obtain ⟨h1, h2, h3, h4⟩ := h
  have hj : s ≠ "JKSE" := by
    rintro rfl
    rcases h4 with h4 | h4 <;> exact absurd h4 (by decide)
  have hno : ¬(s = "LQ45" ∨ s = "LQ45.JK" ∨ s = "IDX:LQ45") := by
    rintro (hc | hc | hc)
    · exact h1 hc
    · exact h2 hc
    · exact h3 hc
  unfold mapIndonesianSymbol
  rw [if_neg hno, if_neg (fun hc => hj hc.1), if_pos h4]

/-- C8: the symbol normalizer is idempotent —
`mapIndonesianSymbol (mapIndonesianSymbol x) = mapIndonesianSymbol x` for
every input string. -/
theorem mapIndonesianSymbol_idempotent (x : String) :
    mapIndonesianSymbol (mapIndonesianSymbol x) = mapIndonesianSymbol x :=
  mapIndonesianSymbol_fixed _ (normalized_mapIndonesianSymbol x)

end NaraDegen
